import Mathlib

/-!
A shallow embedding of the LeetCode MCP server (`main.go`)

The server reads JSON-RPC requests, one per line, dispatches on the method
name and answers with a response envelope.  This file embeds the dispatcher
(`handleRequest`, `handleInitialize`, `handleListTools`, `handleToolCall`),
the result renderer (`formatResult`), the tool handler (`getDailyChallenge`)
and the session loop (`main`) as Lean functions and proves properties about
them.

Modelling conventions

* A Go `interface{}` is a `Value`: the dynamic values this program stores in
  one.  `Value.nil` is the nil interface (what JSON `null` decodes to and the
  zero value of an unset field).
* A Go `map[string]interface{}` is an association list read with
  `mapIndex`: the first binding of a key is the one the map holds, a missing
  key reads as `Value.nil` exactly as indexing a Go map does.
* A Go `string` is a Lean `String`, a sequence of Unicode characters;
  `fmt.Sprintf` with `%s`, `%v`, `%d` is concatenation.
* The network round trip inside `getDailyChallenge` is the one effect of the
  dispatcher.  Its outcome is a field of `MCPServer`, and every function on
  the dispatch path returns, next to its response, the list of handler
  invocations it performed (`Outcome.handlerCalls`).
* `json.Unmarshal` and `json.Marshal` are embedded as far as the program uses
  them: decoding a line into an `MCPRequest` (`Unmarshal`) and encoding an
  `MCPResponse` (`Marshal`), numbers being float64 values with Go's rounding
  and Go's shortest formatting.
* The session loop runs over the raw lines of standard input, the texts
  between line feeds, and returns the lines it prints.  Each line passes
  through `scanLine`, the `bufio.Scanner` of `main`: a line of 64 KiB or more
  makes the scan fail and ends the loop, a shorter one is delivered without a
  trailing carriage return.
-/

namespace MCP

/-! ## Dynamic values -/

/-- The dynamic values held by a Go `interface{}` in this program. -/
inductive Value where
  /-- The nil interface. -/
  | nil
  /-- A Go `bool`. -/
  | bool (b : Bool)
  /-- A Go `float64`, the type every JSON number decodes to; a decoded number
  is finite, hence a rational. -/
  | float64 (x : Rat)
  /-- The float64 negative zero, the one finite float64 that no rational of
  its own denotes; JSON `-0` decodes to it. -/
  | negZero
  /-- A Go `int`. -/
  | int (n : Int)
  /-- A Go `string`. -/
  | string (s : String)
  /-- A Go slice, element by element. -/
  | slice (xs : List Value)
  /-- A Go `map[string]interface{}`. -/
  | map (m : List (String × Value))
  /-- A Go struct value: its type name and its fields in declaration order. -/
  | struct (tname : String) (fields : List (String × Value))
deriving Inhabited

/-- The type assertion `v.(map[string]interface{})`. -/
def Value.asMap : Value → Option (List (String × Value))
  | .map m => some m
  | _ => none

/-- The type assertion `v.(string)`. -/
def Value.asString : Value → Option String
  | .string s => some s
  | _ => none

/-- The type assertion `v.(bool)`. -/
def Value.asBool : Value → Option Bool
  | .bool b => some b
  | _ => none

/-- The comparison `v != nil` of an interface value. -/
def Value.isSet : Value → Bool
  | .nil => false
  | _ => true

/-- The index expression `m[k]` of a Go map: the bound value, or the zero value
(nil) when the key is missing. -/
def mapIndex (m : List (String × Value)) (k : String) : Value :=
  match m.lookup k with
  | some v => v
  | none => Value.nil

/-- The assignment `m[k] = v` of a Go map. -/
def mapSet (m : List (String × Value)) (k : String) (v : Value) : List (String × Value) :=
  (k, v) :: m.filter (fun p => p.1 != k)

/-! ## Protocol structures -/

/-- The Go struct `MCPRequest`. -/
structure MCPRequest where
  JSONRPC : String
  ID : Value
  Method : String
  Params : Value

/-- The Go struct `MCPResponse`; an unset `Result` or `Error` is nil. -/
structure MCPResponse where
  JSONRPC : String
  ID : Value
  Result : Value := Value.nil
  Error : Value := Value.nil

/-- The Go struct `MCPError`. -/
structure MCPError where
  Code : Int
  Message : String

/-- An `MCPError` stored in an `interface{}`. -/
def MCPError.box (e : MCPError) : Value :=
  Value.struct "MCPError" [("Code", Value.int e.Code), ("Message", Value.string e.Message)]

/-- The Go struct `ToolSchema`; a nil `Properties` map or `Required` slice is empty. -/
structure ToolSchema where
  Type_ : String
  Properties : List (String × Value) := []
  Required : List String := []

/-- A `ToolSchema` stored in an `interface{}`. -/
def ToolSchema.box (t : ToolSchema) : Value :=
  Value.struct "ToolSchema"
    [("Type", Value.string t.Type_),
     ("Properties", Value.map t.Properties),
     ("Required", Value.slice (t.Required.map Value.string))]

/-- The Go struct `Tool`. -/
structure Tool where
  Name : String
  Description : String
  InputSchema : Value

/-- A `Tool` as an element of a `[]Tool` stored in an `interface{}`. -/
def Tool.box (t : Tool) : Value :=
  Value.struct "Tool"
    [("Name", Value.string t.Name),
     ("Description", Value.string t.Description),
     ("InputSchema", t.InputSchema)]

/-! ## LeetCode API structures -/

/-- The Go struct `LeetCodeProblem`. -/
structure LeetCodeProblem where
  QuestionID : String
  QuestionFrontendID : String
  Title : String
  TitleSlug : String
  Content : String
  Difficulty : String
  Stats : String

/-- The Go struct `LeetCodeDailyChallenge`. -/
structure LeetCodeDailyChallenge where
  Date : String
  UserStatus : String
  Link : String
  Question : LeetCodeProblem

/-- The anonymous struct of the `Data` field of `GraphQLResponse`. -/
structure GraphQLData where
  ActiveDailyCodingChallengeQuestion : LeetCodeDailyChallenge

/-- The Go struct `GraphQLResponse`. -/
structure GraphQLResponse where
  Data : GraphQLData

/-- What the handler sees of an `*http.Response`: the status code and the
outcome of `json.NewDecoder(resp.Body).Decode(&graphqlResp)`, which is either
the decoder's error text or the decoded value. -/
structure HTTPResponse where
  StatusCode : Int
  Body : Except String GraphQLResponse

/-- The Go struct `MCPServer`.  Its HTTP client is represented by what
`s.client.Do(req)` returns for the one request the handler ever builds: the
error text of a failed round trip, or the response. -/
structure MCPServer where
  client : Except String HTTPResponse

/-- A response together with the handler invocations performed while it was
computed: one entry per call of `getDailyChallenge`, holding the argument. -/
structure Outcome where
  response : MCPResponse
  handlerCalls : List Bool := []

/-! ## Library functions of Go used by the program -/

/-- The scan of `strings.ReplaceAll` for a non-empty `old`, left to right over
the text: `skip` counts the characters of a match that are still to be
consumed; at a position where `old` starts, `new` is emitted and the match is
consumed, otherwise the character is kept. -/
def replaceAllGo (old new : List Char) : Nat → List Char → List Char
  | _, [] => []
  | skip + 1, _ :: cs => replaceAllGo old new skip cs
  | 0, c :: cs =>
    if old.isPrefixOf (c :: cs) then new ++ replaceAllGo old new (old.length - 1) cs
    else c :: replaceAllGo old new 0 cs

/-- Go `strings.ReplaceAll(s, old, new)`: every non-overlapping occurrence of
`old`, found left to right, is replaced by `new`; an empty `old` matches before
every character and at the end. -/
def ReplaceAll (s old new : String) : String :=
  if old.data.isEmpty then String.mk (new.data ++ s.data.flatMap (fun c => c :: new.data))
  else String.mk (replaceAllGo old.data new.data 0 s.data)

/-- Go `unicode.IsSpace`. -/
def isSpace (c : Char) : Bool :=
  let n := c.toNat
  (9 ≤ n && n ≤ 13) || n == 32 || n == 0x85 || n == 0xA0 || n == 0x1680 ||
  (0x2000 ≤ n && n ≤ 0x200A) || n == 0x2028 || n == 0x2029 || n == 0x202F ||
  n == 0x205F || n == 0x3000

/-- Go `strings.TrimSpace`: leading and trailing white space removed. -/
def TrimSpace (s : String) : String :=
  String.mk ((s.data.dropWhile isSpace).reverse.dropWhile isSpace).reverse

/-! ## The tool handler -/

/-- The description cleanup of `getDailyChallenge`: sixteen literal
replacements in the order of the source, then trimming. -/
def cleanContent (raw : String) : String :=
  let content := ReplaceAll raw "</p>" "\n\n"
  let content := ReplaceAll content "<p>" ""
  let content := ReplaceAll content "<strong>" "**"
  let content := ReplaceAll content "</strong>" "**"
  let content := ReplaceAll content "<code>" "`"
  let content := ReplaceAll content "</code>" "`"
  let content := ReplaceAll content "<pre>" "\n```\n"
  let content := ReplaceAll content "</pre>" "\n```\n"
  let content := ReplaceAll content "<ul>" "\n"
  let content := ReplaceAll content "</ul>" "\n"
  let content := ReplaceAll content "<li>" "â€¢ "
  let content := ReplaceAll content "</li>" "\n"
  let content := ReplaceAll content "&lt;" "<"
  let content := ReplaceAll content "&gt;" ">"
  let content := ReplaceAll content "&amp;" "&"
  let content := ReplaceAll content "&quot;" "\""
  TrimSpace content

/-- The method `getDailyChallenge`.  Marshalling the constant query and
building the request cannot fail; from `s.client.Do(req)` on, the body follows
the source: a failed round trip, a status other than 200 and a body that does
not decode are errors, otherwise the result map is built. -/
def getDailyChallenge (s : MCPServer) (includeContent : Bool) : Except String Value :=
  match s.client with
  | .error err => .error ("failed to make request: " ++ err)
  | .ok resp =>
    if resp.StatusCode ≠ 200 then
      .error ("LeetCode API returned status " ++ toString resp.StatusCode)
    else
      match resp.Body with
      | .error err => .error ("failed to decode response: " ++ err)
      | .ok graphqlResp =>
        let challenge := graphqlResp.Data.ActiveDailyCodingChallengeQuestion
        let result : List (String × Value) :=
          [("date", Value.string challenge.Date),
           ("title", Value.string challenge.Question.Title),
           ("difficulty", Value.string challenge.Question.Difficulty),
           ("link", Value.string ("https://leetcode.com" ++ challenge.Link)),
           ("problem_id", Value.string challenge.Question.QuestionFrontendID)]
        let result :=
          if includeContent && challenge.Question.Content != "" then
            mapSet result "description" (Value.string (cleanContent challenge.Question.Content))
          else result
        .ok (Value.map result)

/-! ## The response formatter -/

/-- The function `formatResult`: a `strings.Builder` written to field by field. -/
def formatResult (result : Value) : String :=
  match result.asMap with
  | none => "Unable to format result"
  | some data =>
    let output := ""
    let output := match (mapIndex data "title").asString with
      | some title => output ++ ("**" ++ title ++ "**\n")
      | none => output
    let output := match (mapIndex data "difficulty").asString with
      | some difficulty => output ++ ("**Difficulty:** " ++ difficulty ++ "\n")
      | none => output
    let output := match (mapIndex data "problem_id").asString with
      | some problemId => output ++ ("**Problem ID:** " ++ problemId ++ "\n")
      | none => output
    let output := match (mapIndex data "link").asString with
      | some link => output ++ ("**Link:** " ++ link ++ "\n")
      | none => output
    let output := match (mapIndex data "date").asString with
      | some date => output ++ ("**Date:** " ++ date ++ "\n")
      | none => output
    let output := match (mapIndex data "description").asString with
      | some description => output ++ ("\n**Problem Description:**\n" ++ description ++ "\n")
      | none => output
    output

/-! ## The dispatcher -/

/-- The method `handleInitialize`. -/
def handleInitialize (_s : MCPServer) (req : MCPRequest) : Outcome :=
  { response :=
      { JSONRPC := "2.0"
        ID := req.ID
        Result := Value.map
          [("protocolVersion", Value.string "2024-11-05"),
           ("capabilities", Value.map
              [("tools", Value.map [("listChanged", Value.bool false)])]),
           ("serverInfo", Value.map
              [("name", Value.string "leetcode-mcp-server"),
               ("version", Value.string "1.0.0")])] } }

/-- The local `tools` of `handleListTools`: the table of registered tools. -/
def tools : List Tool :=
  [{ Name := "get_leetcode_daily_challenge"
     Description := "Fetches today's LeetCode daily challenge problem with title, difficulty, and description"
     InputSchema := ToolSchema.box
       { Type_ := "object"
         Properties :=
           [("include_content", Value.map
              [("type", Value.string "boolean"),
               ("description", Value.string "Whether to include the full problem description (default: true)")])] } }]

/-- The method `handleListTools`. -/
def handleListTools (_s : MCPServer) (req : MCPRequest) : Outcome :=
  { response :=
      { JSONRPC := "2.0"
        ID := req.ID
        Result := Value.map [("tools", Value.slice (tools.map Tool.box))] } }

/-- The method `handleToolCall`. -/
def handleToolCall (s : MCPServer) (req : MCPRequest) : Outcome :=
  match req.Params.asMap with
  | none =>
    { response :=
        { JSONRPC := "2.0"
          ID := req.ID
          Error := MCPError.box { Code := -32602, Message := "Invalid params" } } }
  | some params =>
    match (mapIndex params "name").asString with
    | none =>
      { response :=
          { JSONRPC := "2.0"
            ID := req.ID
            Error := MCPError.box { Code := -32602, Message := "Missing tool name" } } }
    | some name =>
      if name = "get_leetcode_daily_challenge" then
        let includeContent := true
        let includeContent :=
          match (mapIndex params "arguments").asMap with
          | some args =>
            match (mapIndex args "include_content").asBool with
            | some ic => ic
            | none => includeContent
          | none => includeContent
        match getDailyChallenge s includeContent with
        | .error err =>
          { response :=
              { JSONRPC := "2.0"
                ID := req.ID
                Error := MCPError.box
                  { Code := -32603
                    Message := "Failed to fetch daily challenge: " ++ err } }
            handlerCalls := [includeContent] }
        | .ok result =>
          { response :=
              { JSONRPC := "2.0"
                ID := req.ID
                Result := Value.map
                  [("content", Value.slice
                     [Value.map
                        [("type", Value.string "text"),
                         ("text", Value.string
                            ("LeetCode Daily Challenge retrieved successfully:\n\n" ++
                              formatResult result))]])] }
            handlerCalls := [includeContent] }
      else
        { response :=
            { JSONRPC := "2.0"
              ID := req.ID
              Error := MCPError.box { Code := -32601, Message := "Tool not found" } } }

/-- The method `handleRequest`: the switch on the method name. -/
def handleRequest (s : MCPServer) (req : MCPRequest) : Outcome :=
  if req.Method = "initialize" then handleInitialize s req
  else if req.Method = "tools/list" then handleListTools s req
  else if req.Method = "tools/call" then handleToolCall s req
  else
    { response :=
        { JSONRPC := "2.0"
          ID := req.ID
          Error := MCPError.box { Code := -32601, Message := "Method not found" } } }

/-! ## Go `encoding/json`: decoding -/

/-- The syntax tree of a JSON text.  A number keeps its literal value exactly:
`number neg mantissa exp10` is `(-1)^neg * mantissa * 10^exp10`. -/
inductive JSON where
  | null
  | bool (b : Bool)
  | number (neg : Bool) (mantissa : Nat) (exp10 : Int)
  | string (s : String)
  | array (items : List JSON)
  | object (members : List (String × JSON))
deriving Inhabited

/-- White space between JSON tokens: space, tab, carriage return, line feed. -/
def isJSONSpace (c : Char) : Bool :=
  c == ' ' || c == '\t' || c == '\r' || c == '\n'

/-- The text after its leading JSON white space. -/
def skipSpace : List Char → List Char
  | [] => []
  | c :: cs => if isJSONSpace c then skipSpace cs else c :: cs

/-- The value of a hexadecimal digit. -/
def hexValue (c : Char) : Option Nat :=
  if '0' ≤ c ∧ c ≤ '9' then some (c.toNat - '0'.toNat)
  else if 'a' ≤ c ∧ c ≤ 'f' then some (c.toNat - 'a'.toNat + 10)
  else if 'A' ≤ c ∧ c ≤ 'F' then some (c.toNat - 'A'.toNat + 10)
  else none

/-- Go `getu4`: the code unit of an escape `\uXXXX` at the head of the text,
with the text after it. -/
def getu4 : List Char → Option (Nat × List Char)
  | '\\' :: 'u' :: a :: b :: c :: d :: rest =>
    match hexValue a, hexValue b, hexValue c, hexValue d with
    | some x, some y, some z, some w => some (((x * 16 + y) * 16 + z) * 16 + w, rest)
    | _, _, _, _ => none
  | _ => none

/-- The body of a string literal after the opening quote, up to the closing
quote, unescaped as Go `unquote` does: a control character or an unknown
escape is a syntax error; a surrogate escape that is not the first half of a
valid pair becomes U+FFFD. -/
def parseStringBody : Nat → List Char → List Char → Option (String × List Char)
  | 0, _, _ => none
  | _ + 1, [], _ => none
  | fuel + 1, c :: cs, acc =>
    if c == '"' then some (String.mk acc.reverse, cs)
    else if c == '\\' then
      match cs with
      | [] => none
      | e :: rest =>
        if e == '"' then parseStringBody fuel rest ('"' :: acc)
        else if e == '\\' then parseStringBody fuel rest ('\\' :: acc)
        else if e == '/' then parseStringBody fuel rest ('/' :: acc)
        else if e == 'b' then parseStringBody fuel rest (Char.ofNat 8 :: acc)
        else if e == 'f' then parseStringBody fuel rest (Char.ofNat 12 :: acc)
        else if e == 'n' then parseStringBody fuel rest ('\n' :: acc)
        else if e == 'r' then parseStringBody fuel rest ('\r' :: acc)
        else if e == 't' then parseStringBody fuel rest ('\t' :: acc)
        else if e == 'u' then
          match getu4 (c :: cs) with
          | none => none
          | some (rr, after) =>
            if 0xD800 ≤ rr ∧ rr < 0xE000 then
              match getu4 after with
              | some (rr1, after1) =>
                if rr < 0xDC00 ∧ 0xDC00 ≤ rr1 ∧ rr1 < 0xE000 then
                  parseStringBody fuel after1
                    (Char.ofNat (((rr - 0xD800) * 0x400 + (rr1 - 0xDC00)) + 0x10000) :: acc)
                else parseStringBody fuel after (Char.ofNat 0xFFFD :: acc)
              | none => parseStringBody fuel after (Char.ofNat 0xFFFD :: acc)
            else parseStringBody fuel after (Char.ofNat rr :: acc)
        else none
    else if c.toNat < 0x20 then none
    else parseStringBody fuel cs (c :: acc)

/-- The longest run of decimal digits at the head of the text: their count,
their value appended to `acc`, and the text after them. -/
def parseDigits : List Char → Nat → Nat → Nat × Nat × List Char
  | [], count, acc => (count, acc, [])
  | c :: cs, count, acc =>
    if '0' ≤ c ∧ c ≤ '9' then parseDigits cs (count + 1) (acc * 10 + (c.toNat - '0'.toNat))
    else (count, acc, c :: cs)

/-- A number literal at the head of the text, by the JSON grammar: an optional
minus, an integer part (a single 0, or digits not starting with 0), an
optional fraction (a point and at least one digit), an optional exponent
(`e` or `E`, an optional sign, at least one digit). -/
def parseNumber (cs : List Char) : Option (JSON × List Char) :=
  let (neg, cs) := match cs with
    | '-' :: rest => (true, rest)
    | _ => (false, cs)
  let intPart : Option (Nat × List Char) := match cs with
    | '0' :: rest => some (0, rest)
    | c :: _ =>
      if '1' ≤ c ∧ c ≤ '9' then
        let (_, value, rest) := parseDigits cs 0 0
        some (value, rest)
      else none
    | [] => none
  match intPart with
  | none => none
  | some (mantissa, cs) =>
    let frac : Option (Nat × Nat × List Char) := match cs with
      | '.' :: rest =>
        let (count, value, rest) := parseDigits rest 0 mantissa
        if count = 0 then none else some (count, value, rest)
      | _ => some (0, mantissa, cs)
    match frac with
    | none => none
    | some (fracDigits, mantissa, cs) =>
      let expo : Option (Int × List Char) := match cs with
        | c :: rest =>
          if c == 'e' || c == 'E' then
            let (negExp, rest) := match rest with
              | '+' :: r => (false, r)
              | '-' :: r => (true, r)
              | _ => (false, rest)
            let (count, value, rest) := parseDigits rest 0 0
            if count = 0 then none
            else some (if negExp then -(value : Int) else (value : Int), rest)
          else some (0, cs)
        | [] => some (0, cs)
      match expo with
      | none => none
      | some (e, cs) => some (JSON.number neg mantissa (e - fracDigits), cs)

/-- Go `maxNestingDepth`: arrays and objects may nest this deep. -/
def maxNestingDepth : Nat := 10000

/-- The members of an object after its opening brace, `parseValue` being the
parser of a member value: `first` tells that no member has been read yet, so
that the closing brace may follow directly. -/
def parseMembers (parseValue : List Char → Option (JSON × List Char)) :
    Nat → Bool → List Char → List (String × JSON) → Option (JSON × List Char)
  | 0, _, _, _ => none
  | fuel + 1, first, cs, acc =>
    match skipSpace cs with
    | '}' :: rest => if first then some (JSON.object acc.reverse, rest) else none
    | '"' :: rest =>
      match parseStringBody (rest.length + 1) rest [] with
      | none => none
      | some (key, rest) =>
        match skipSpace rest with
        | ':' :: rest =>
          match parseValue rest with
          | none => none
          | some (value, rest) =>
            match skipSpace rest with
            | ',' :: rest => parseMembers parseValue fuel false rest ((key, value) :: acc)
            | '}' :: rest => some (JSON.object ((key, value) :: acc).reverse, rest)
            | _ => none
        | _ => none
    | _ => none

/-- The items of an array after its opening bracket. -/
def parseItems (parseValue : List Char → Option (JSON × List Char)) :
    Nat → Bool → List Char → List JSON → Option (JSON × List Char)
  | 0, _, _, _ => none
  | fuel + 1, first, cs, acc =>
    match skipSpace cs with
    | ']' :: rest => if first then some (JSON.array acc.reverse, rest) else none
    | rest0 =>
      match parseValue rest0 with
      | none => none
      | some (value, rest) =>
        match skipSpace rest with
        | ',' :: rest => parseItems parseValue fuel false rest (value :: acc)
        | ']' :: rest => some (JSON.array (value :: acc).reverse, rest)
        | _ => none

/-- One JSON value at the head of the text, after optional white space, with
the text after it; `depth` is the number of container levels still allowed. -/
def parseValue : Nat → Nat → List Char → Option (JSON × List Char)
  | 0, _, _ => none
  | fuel + 1, depth, cs =>
    match skipSpace cs with
    | '{' :: rest =>
      if depth = 0 then none
      else parseMembers (fun t => parseValue fuel (depth - 1) t) (rest.length + 1) true rest []
    | '[' :: rest =>
      if depth = 0 then none
      else parseItems (fun t => parseValue fuel (depth - 1) t) (rest.length + 1) true rest []
    | '"' :: rest =>
      match parseStringBody (rest.length + 1) rest [] with
      | none => none
      | some (s, rest) => some (JSON.string s, rest)
    | 't' :: 'r' :: 'u' :: 'e' :: rest => some (JSON.bool true, rest)
    | 'f' :: 'a' :: 'l' :: 's' :: 'e' :: rest => some (JSON.bool false, rest)
    | 'n' :: 'u' :: 'l' :: 'l' :: rest => some (JSON.null, rest)
    | rest => parseNumber rest

/-- A whole JSON text: one value, white space around it, nothing else.  This
is the syntax that Go `checkValid` accepts. -/
def parseJSON (text : String) : Option JSON :=
  match parseValue (text.data.length + 1) maxNestingDepth text.data with
  | none => none
  | some (value, rest) => if (skipSpace rest).isEmpty then some value else none

/-- The halving count behind `floorLog2`; `fuel` bounds the number of halvings. -/
def floorLog2Go : Nat → Nat → Nat
  | 0, _ => 0
  | fuel + 1, n => if n < 2 then 0 else floorLog2Go fuel (n / 2) + 1

/-- The position of the highest set bit of a positive number, the integer part
of its binary logarithm. -/
def floorLog2 (n : Nat) : Nat :=
  floorLog2Go n n

/-- Rounding of the positive rational `num / den` to the float64 grid, as Go
`strconv.ParseFloat` rounds: the mantissa `m` and binary exponent `k` of the
nearest value `m * 2^k`, ties to the even mantissa, where `k` is the exponent
of the last place at the magnitude of the rational (never below -1074, the
last place of the subnormals).  `m` is at most `2^53`. -/
def roundBinary64 (num den : Nat) : Nat × Int :=
  let e : Int := (floorLog2 num : Int) - (floorLog2 den : Int)
  let reaches : Bool :=
    if 0 ≤ e then decide (den * 2 ^ e.toNat ≤ num) else decide (den ≤ num * 2 ^ (-e).toNat)
  let e2 : Int := if reaches then e else e - 1
  let k : Int := max e2 (-1022) - 52
  let scaledNum : Nat := if 0 ≤ k then num else num * 2 ^ (-k).toNat
  let scaledDen : Nat := if 0 ≤ k then den * 2 ^ k.toNat else den
  let q := scaledNum / scaledDen
  let r := scaledNum % scaledDen
  let m := if scaledDen < 2 * r ∨ (2 * r = scaledDen ∧ q % 2 = 1) then q + 1 else q
  (m, k)

/-- The float64 nearest to the positive rational `num / den` in canonical
form: the mantissa is below `2^53`, the exponent raised when rounding reached
`2^53`. -/
def binary64Of (num den : Nat) : Nat × Int :=
  let (m, k) := roundBinary64 num den
  if m = 2 ^ 53 then (2 ^ 52, k + 1) else (m, k)

/-- The rational `m * 2^k`, negated when `neg`. -/
def binary64Value (neg : Bool) (m : Nat) (k : Int) : Rat :=
  let n : Int := if neg then -(m : Int) else (m : Int)
  if 0 ≤ k then mkRat (n * 2 ^ k.toNat) 1 else mkRat n (2 ^ (-k).toNat)

/-- Go `strconv.ParseFloat(s, 64)` on a JSON number literal: the nearest
float64; a literal that rounds beyond the largest float64 is a range error
(`none`); a literal that rounds to zero gives a zero of its sign. -/
def parseFloat (neg : Bool) (mantissa : Nat) (exp10 : Int) : Option Value :=
  let zero : Value := if neg then Value.negZero else Value.float64 0
  if mantissa = 0 then some zero
  else
    let num : Nat := if 0 ≤ exp10 then mantissa * 10 ^ exp10.toNat else mantissa
    let den : Nat := if 0 ≤ exp10 then 1 else 10 ^ (-exp10).toNat
    let (m, k) := binary64Of num den
    if m = 0 then some zero
    else if 971 < k then none
    else some (Value.float64 (binary64Value neg m k))

mutual
/-- The generic decoding of a JSON value into an `interface{}`: null is nil, a
number a float64, an array a `[]interface{}`, an object a
`map[string]interface{}`; a number out of the float64 range is an error. -/
def JSON.toInterface : JSON → Except String Value
  | .null => .ok Value.nil
  | .bool b => .ok (Value.bool b)
  | .number neg mantissa exp10 =>
    match parseFloat neg mantissa exp10 with
    | some v => .ok v
    | none => .error "json: cannot unmarshal number into Go value of type float64"
  | .string s => .ok (Value.string s)
  | .array items =>
    match arrayInterface items with
    | .ok xs => .ok (Value.slice xs)
    | .error e => .error e
  | .object members =>
    match objectInterface members [] with
    | .ok m => .ok (Value.map m)
    | .error e => .error e
/-- The items of an array, decoded in order. -/
def arrayInterface : List JSON → Except String (List Value)
  | [] => .ok []
  | x :: xs =>
    match x.toInterface with
    | .error e => .error e
    | .ok v =>
      match arrayInterface xs with
      | .ok vs => .ok (v :: vs)
      | .error e => .error e
/-- The members of an object, assigned to the map `m` in order, so that a
later member replaces an earlier one of the same key. -/
def objectInterface : List (String × JSON) → List (String × Value) →
    Except String (List (String × Value))
  | [], m => .ok m
  | (key, x) :: rest, m =>
    match x.toInterface with
    | .error e => .error e
    | .ok v => objectInterface rest (mapSet m key v)
end

/-- The folding of one character under which Go compares an object key with a
field name: upper-case ASCII letters fold to lower case, and the two
non-ASCII characters that fold to an ASCII letter, U+017F and U+212A, to `s`
and `k`. -/
def foldRune (c : Char) : Char :=
  if 'A' ≤ c ∧ c ≤ 'Z' then Char.ofNat (c.toNat + 32)
  else if c.toNat = 0x17F then 's'
  else if c.toNat = 0x212A then 'k'
  else c

/-- The folded form of an object key: a key selects the field whose JSON name
equals it exactly or under folding, and the names of `MCPRequest` are
lower-case ASCII. -/
def foldName (key : String) : String :=
  String.mk (key.data.map foldRune)

/-- The state of decoding into an `MCPRequest`: the struct being filled and
the first type error saved so far. -/
structure DecodeState where
  req : MCPRequest
  savedError : Option String

/-- Go `saveError`: the first error is kept. -/
def DecodeState.saveError (st : DecodeState) (e : String) : DecodeState :=
  match st.savedError with
  | none => { st with savedError := some e }
  | some _ => st

/-- The decoding of one object member into the struct: a key that names no
field is skipped; a string field takes a string, is left as it is by null, and
any other value is a type error; an `interface{}` field takes the generic
decoding of any value. -/
def decodeMember (st : DecodeState) (member : String × JSON) : DecodeState :=
  let name := foldName member.1
  if name = "jsonrpc" then
    match member.2 with
    | .string s => { st with req := { st.req with JSONRPC := s } }
    | .null => st
    | _ => st.saveError "json: cannot unmarshal into Go struct field MCPRequest.jsonrpc of type string"
  else if name = "id" then
    match member.2.toInterface with
    | .ok v => { st with req := { st.req with ID := v } }
    | .error e => st.saveError e
  else if name = "method" then
    match member.2 with
    | .string s => { st with req := { st.req with Method := s } }
    | .null => st
    | _ => st.saveError "json: cannot unmarshal into Go struct field MCPRequest.method of type string"
  else if name = "params" then
    match member.2.toInterface with
    | .ok v => { st with req := { st.req with Params := v } }
    | .error e => st.saveError e
  else st

/-- The decoding of a JSON value into the zero `MCPRequest` of `var req`: an
object fills the fields member by member, null leaves the struct as it is, and
any other value is a type error. -/
def decodeRequest (v : JSON) : Except String MCPRequest :=
  let zero : MCPRequest := { JSONRPC := "", ID := Value.nil, Method := "", Params := Value.nil }
  match v with
  | .object members =>
    let st := members.foldl decodeMember { req := zero, savedError := none }
    match st.savedError with
    | some e => .error e
    | none => .ok st.req
  | .null => .ok zero
  | _ => .error "json: cannot unmarshal into Go value of type main.MCPRequest"

/-- Go `json.Unmarshal([]byte(line), &req)`: the text is checked to be one
valid JSON value, then decoded into the struct. -/
def Unmarshal (line : String) : Except String MCPRequest :=
  match parseJSON line with
  | none => .error "invalid character"
  | some v => decodeRequest v

/-! ## Go `encoding/json`: encoding -/

/-- A hexadecimal digit in lower case. -/
def hexDigit (n : Nat) : Char :=
  "0123456789abcdef".data.getD n '0'

/-- The encoding of one character inside a string literal, with Go's default
HTML escaping: the quote and the backslash are escaped with a backslash; the
control characters have their short escape (`\b`, `\f`, `\n`, `\r`, `\t`, as
Go 1.22 and later write them) or the form `\u00XX`; `<`, `>`, `&`, U+2028 and U+2029 take the form `\uXXXX`;
every other character stands for itself. -/
def encodeRune (c : Char) : List Char :=
  if c == '"' then ['\\', '"']
  else if c == '\\' then ['\\', '\\']
  else if c.toNat = 8 then ['\\', 'b']
  else if c.toNat = 12 then ['\\', 'f']
  else if c == '\n' then ['\\', 'n']
  else if c == '\r' then ['\\', 'r']
  else if c == '\t' then ['\\', 't']
  else if c.toNat < 0x20 ∨ c == '<' ∨ c == '>' ∨ c == '&' then
    ['\\', 'u', '0', '0', hexDigit (c.toNat / 16), hexDigit (c.toNat % 16)]
  else if c.toNat = 0x2028 then ['\\', 'u', '2', '0', '2', '8']
  else if c.toNat = 0x2029 then ['\\', 'u', '2', '0', '2', '9']
  else [c]

/-- The encoding of a Go string: a quoted literal. -/
def encodeString (s : String) : List Char :=
  '"' :: (s.data.flatMap encodeRune ++ ['"'])

/-- The digits of a number without its trailing zeros. -/
def trimZeros (digits : List Char) : List Char :=
  (digits.reverse.dropWhile (fun c => c == '0')).reverse

/-- The search of Go's shortest formatting (`strconv` with precision -1) for
the float64 `v = value / scale` with rounding interval `lower / scale` to
`upper / scale` (its ends included when `inclusive`): going down the decimal
places from `10^place`, the first place at which `v` truncated, or truncated
and raised by one unit, lies in the interval gives the result; when both do,
`v` is rounded to nearest there, a tie to the even digit.  The result is the
digit value and the place of its last digit. -/
def shortestDigits (value lower upper scale : Nat) (inclusive : Bool) :
    Nat → Int → Nat × Int
  | 0, place => (value / scale, place)
  | fuel + 1, place =>
    let up10 : Nat := 10 ^ (-place).toNat
    let unit : Nat := scale * 10 ^ place.toNat
    let t := value * up10 / unit
    let down := t * unit
    let up := down + unit
    let okdown : Bool :=
      decide (lower * up10 < down) || (decide (lower * up10 = down) && inclusive)
    let okup : Bool :=
      decide (up < upper * up10) || (decide (up = upper * up10) && inclusive)
    let rest := value * up10 - down
    let roundUp : Bool := decide (unit < 2 * rest) || (decide (2 * rest = unit) && t % 2 == 1)
    if okdown && okup then (if roundUp then (t + 1, place) else (t, place))
    else if okdown then (t, place)
    else if okup then (t + 1, place)
    else shortestDigits value lower upper scale inclusive fuel (place - 1)

/-- The shortest decimal of the float64 `m * 2^k` (canonical, `m > 0`): its
digits without trailing zeros, and the position `dp` of the decimal point,
the value being `0.digits * 10^dp`. -/
def shortestDecimal (m : Nat) (k : Int) : List Char × Int :=
  let shift : Nat := (2 - k).toNat
  let e : Nat := (k - 2).toNat
  let scale : Nat := 2 ^ shift
  let value : Nat := 4 * m * 2 ^ e
  let upper : Nat := (4 * m + 2) * 2 ^ e
  let lower : Nat :=
    if m = 2 ^ 52 ∧ -1074 < k then (4 * m - 1) * 2 ^ e else (4 * m - 2) * 2 ^ e
  let bits : Int := (floorLog2 m : Int) + 1 + k
  let place : Int :=
    if 0 ≤ bits then bits * 30103 / 100000 + 1 else -((-bits) * 30102 / 100000) + 1
  let (digitValue, last) :=
    shortestDigits value lower upper scale (m % 2 == 0) 400 place
  let digits := Nat.toDigits 10 digitValue
  (trimZeros digits, (digits.length : Int) + last)

/-- Go `%e` formatting of a shortest decimal: one digit, the others after a
point, and an exponent of at least two digits with its sign. -/
def fmtE (digits : List Char) (dp : Int) : List Char :=
  let mantissa : List Char :=
    match digits with
    | [] => ['0']
    | [d] => [d]
    | d :: ds => d :: '.' :: ds
  let exp : Int := if digits.isEmpty then 0 else dp - 1
  let sign : Char := if exp < 0 then '-' else '+'
  let expDigits := Nat.toDigits 10 exp.natAbs
  let expDigits := if expDigits.length < 2 then '0' :: expDigits else expDigits
  mantissa ++ ('e' :: sign :: expDigits)

/-- Go `%f` formatting of a shortest decimal: the integer part, padded with
zeros up to the point, and the digits after the point when there are any. -/
def fmtF (digits : List Char) (dp : Int) : List Char :=
  let nd : Int := digits.length
  let intPart : List Char :=
    if 0 < dp then digits.take dp.toNat ++ List.replicate (dp - nd).toNat '0' else ['0']
  let prec : Nat := (nd - dp).toNat
  let frac : List Char :=
    if 0 < prec then
      '.' :: (List.replicate (min prec (-dp).toNat) '0' ++ digits.drop dp.toNat)
    else []
  intPart ++ frac

/-- The float encoder of `encoding/json` on the float64 nearest to the
rational `x`: zero is `0`; a magnitude below the float64 `1e-6` or from
`1e21` on is written in `%e` form, with a negative exponent of one digit
shortened (`e-07` to `e-7`), every other in `%f` form.  Every rational is
taken as a finite float64: infinities and NaN, which the encoder refuses, do
not arise from decoding. -/
def encodeFloat (x : Rat) : List Char :=
  if x = 0 then ['0']
  else
    let (m, k) := binary64Of x.num.natAbs x.den
    if m = 0 then (if x < 0 then ['-', '0'] else ['0'])
    else
      let (digits, dp) := shortestDecimal m k
      let small := binary64Of 1 1000000
      let belowSmall : Bool :=
        -- m * 2^k < small.1 * 2^small.2
        if k ≤ small.2 then decide (m < small.1 * 2 ^ (small.2 - k).toNat)
        else decide (m * 2 ^ (k - small.2).toNat < small.1)
      let fromLarge : Bool :=
        if 0 ≤ k then decide (10 ^ 21 ≤ m * 2 ^ k.toNat)
        else decide (10 ^ 21 * 2 ^ (-k).toNat ≤ m)
      let body : List Char :=
        if belowSmall || fromLarge then
          let b := fmtE digits dp
          match b.reverse with
          | d :: '0' :: '-' :: 'e' :: front => (d :: '-' :: 'e' :: front).reverse
          | _ => b
        else fmtF digits dp
      if x < 0 then '-' :: body else body

/-- The `json` tags of the struct types of the program: the JSON name of a
field and whether it is tagged `omitempty`. -/
def jsonTag (tname field : String) : String × Bool :=
  if tname = "MCPError" ∧ field = "Code" then ("code", false)
  else if tname = "MCPError" ∧ field = "Message" then ("message", false)
  else if tname = "Tool" ∧ field = "Name" then ("name", false)
  else if tname = "Tool" ∧ field = "Description" then ("description", false)
  else if tname = "Tool" ∧ field = "InputSchema" then ("inputSchema", false)
  else if tname = "ToolSchema" ∧ field = "Type" then ("type", false)
  else if tname = "ToolSchema" ∧ field = "Properties" then ("properties", true)
  else if tname = "ToolSchema" ∧ field = "Required" then ("required", true)
  else (field, false)

/-- Go `isEmptyValue`, by which `omitempty` drops a field: false, zero, nil,
and the empty string, slice and map. -/
def isEmptyValue : Value → Bool
  | .nil => true
  | .bool b => !b
  | .float64 x => decide (x = 0)
  | .negZero => true
  | .int n => decide (n = 0)
  | .string s => s.data.isEmpty
  | .slice xs => xs.isEmpty
  | .map m => m.isEmpty
  | .struct _ _ => false

/-- The texts joined by commas. -/
def joinComma : List (List Char) → List Char
  | [] => []
  | [x] => x
  | x :: y :: rest => x ++ ',' :: joinComma (y :: rest)

/-- The order in which Go sorts the keys of a map: byte-wise on the UTF-8
encoding, which is the lexicographic order of the code points. -/
def keyLess : List Char → List Char → Bool
  | [], [] => false
  | [], _ :: _ => true
  | _ :: _, [] => false
  | a :: as, b :: bs =>
    if a.toNat < b.toNat then true
    else if b.toNat < a.toNat then false
    else keyLess as bs

/-- The insertion of an encoded member into members sorted by key; a member of
the same key is replaced. -/
def insertMember (member : String × List Char) :
    List (String × List Char) → List (String × List Char)
  | [] => [member]
  | other :: rest =>
    if keyLess member.1.data other.1.data then member :: other :: rest
    else if member.1 = other.1 then member :: rest
    else other :: insertMember member rest

/-- The encoded members of a map as Go writes them: each key once, with the
value the map holds for it (its first binding), the keys in sorted order. -/
def sortMembers : List (String × List Char) → List (String × List Char)
  | [] => []
  | member :: rest => insertMember member (sortMembers rest)

mutual
/-- The encoding of a value by `json.Marshal`. -/
def encodeValue : Value → List Char
  | .nil => "null".data
  | .bool b => if b then "true".data else "false".data
  | .float64 x => encodeFloat x
  | .negZero => "-0".data
  | .int n => (toString n).data
  | .string s => encodeString s
  | .slice xs => '[' :: (joinComma (encodeItems xs) ++ [']'])
  | .map m =>
    '{' :: (joinComma ((sortMembers (encodeEntries m)).map
      (fun member => encodeString member.1 ++ ':' :: member.2)) ++ ['}'])
  | .struct tname fields => '{' :: (joinComma (encodeFields tname fields) ++ ['}'])
/-- The encodings of the items of a slice. -/
def encodeItems : List Value → List (List Char)
  | [] => []
  | x :: xs => encodeValue x :: encodeItems xs
/-- The bindings of a map, each value encoded. -/
def encodeEntries : List (String × Value) → List (String × List Char)
  | [] => []
  | (key, v) :: rest => (key, encodeValue v) :: encodeEntries rest
/-- The fields of a struct in declaration order, each under its JSON name, a
field tagged `omitempty` left out when it is empty. -/
def encodeFields (tname : String) : List (String × Value) → List (List Char)
  | [] => []
  | (field, v) :: rest =>
    if (jsonTag tname field).2 && isEmptyValue v then encodeFields tname rest
    else (encodeString (jsonTag tname field).1 ++ ':' :: encodeValue v) :: encodeFields tname rest
end

/-- The encoding of an `MCPResponse`: the fields `jsonrpc` and `id`, then
`result` and `error`, each left out when it is nil (`omitempty`). -/
def encodeResponse (response : MCPResponse) : String :=
  let fields : List (List Char) :=
    [ "\"jsonrpc\":".data ++ encodeString response.JSONRPC,
      "\"id\":".data ++ encodeValue response.ID ] ++
    (if response.Result.isSet then ["\"result\":".data ++ encodeValue response.Result] else []) ++
    (if response.Error.isSet then ["\"error\":".data ++ encodeValue response.Error] else [])
  String.mk ('{' :: (joinComma fields ++ ['}']))

/-- Go `json.Marshal(response)`.  The encoder fails on no value of the
program: it refuses infinities, NaN and values of unsupported types only. -/
def Marshal (response : MCPResponse) : Except String String :=
  .ok (encodeResponse response)

/-! ## The session loop -/

/-- Go `bufio.MaxScanTokenSize`: the size up to which the buffer of a
`bufio.Scanner` made by `bufio.NewScanner` grows. -/
def MaxScanTokenSize : Nat := 64 * 1024

/-- The number of bytes of a character in UTF-8. -/
def utf8Size (c : Char) : Nat :=
  if c.toNat < 0x80 then 1
  else if c.toNat < 0x800 then 2
  else if c.toNat < 0x10000 then 3
  else 4

/-- The number of bytes of a text in UTF-8, the length of the Go string. -/
def utf8Length : List Char → Nat
  | [] => 0
  | c :: cs => utf8Size c + utf8Length cs

/-- Go `dropCR` of `bufio.ScanLines`: one trailing carriage return is dropped. -/
def dropCR : List Char → List Char
  | [] => []
  | [c] => if c = '\r' then [] else [c]
  | c :: d :: rest => c :: dropCR (d :: rest)

/-- One `scanner.Scan()` followed by `scanner.Text()` on the next raw line of
standard input, the text up to the next line feed or to the end of the input.
The scanner finds the end of a line only inside its buffer, which grows to
`MaxScanTokenSize` bytes and no further: on a line of that many bytes or more
`Scan` fails with `ErrTooLong`.  Otherwise the token is the line without a
trailing carriage return. -/
def scanLine (raw : String) : Except String String :=
  if MaxScanTokenSize ≤ utf8Length raw.data then .error "bufio.Scanner: token too long"
  else .ok (String.mk (dropCR raw.data))

/-- The loop of `main` over the raw lines of standard input, `i` being the
number of lines read before; `net i` is the server as it answers while the
line of index `i` is handled.  The result is the sequence of lines printed on
standard output.  When `Scan` fails the loop ends (the error is logged), and
the lines after it are not read. -/
def mainLoop (net : Nat → MCPServer) : Nat → List String → List String
  | _, [] => []
  | i, raw :: rest =>
    match scanLine raw with
    | .error _ => []
    | .ok line =>
      if line = "" then mainLoop net (i + 1) rest
      else
        match Unmarshal line with
        | .error _ => mainLoop net (i + 1) rest
        | .ok req =>
          let response := (handleRequest (net i) req).response
          match Marshal response with
          | .error _ => mainLoop net (i + 1) rest
          | .ok responseJSON => responseJSON :: mainLoop net (i + 1) rest

/-- The function `main`: the loop from the first line on. -/
def main (net : Nat → MCPServer) (lines : List String) : List String :=
  mainLoop net 0 lines

/-! ## Definitions used to state the properties -/

/-- The error envelope every failing path builds: version tag, echoed ID, no
result, the boxed error, and no handler invocation. -/
def errorOutcome (req : MCPRequest) (code : Int) (message : String) : Outcome :=
  { response :=
      { JSONRPC := "2.0"
        ID := req.ID
        Result := Value.nil
        Error := MCPError.box { Code := code, Message := message } }
    handlerCalls := [] }

/-- The outcome of `handleToolCall` once the handler has been invoked with
`includeContent` and has returned `r`: the two branches after the call. -/
def afterHandler (req : MCPRequest) (includeContent : Bool) (r : Except String Value) : Outcome :=
  match r with
  | .error err =>
    { response :=
        { JSONRPC := "2.0"
          ID := req.ID
          Error := MCPError.box
            { Code := -32603
              Message := "Failed to fetch daily challenge: " ++ err } }
      handlerCalls := [includeContent] }
  | .ok result =>
    { response :=
        { JSONRPC := "2.0"
          ID := req.ID
          Result := Value.map
            [("content", Value.slice
               [Value.map
                  [("type", Value.string "text"),
                   ("text", Value.string
                      ("LeetCode Daily Challenge retrieved successfully:\n\n" ++
                        formatResult result))]])] }
      handlerCalls := [includeContent] }

/-- The six rendered fields in their fixed order, each with the format of its
line. -/
def renderedFields : List (String × (String → String)) :=
  [("title", fun title => "**" ++ title ++ "**\n"),
   ("difficulty", fun difficulty => "**Difficulty:** " ++ difficulty ++ "\n"),
   ("problem_id", fun problemId => "**Problem ID:** " ++ problemId ++ "\n"),
   ("link", fun link => "**Link:** " ++ link ++ "\n"),
   ("date", fun date => "**Date:** " ++ date ++ "\n"),
   ("description", fun description => "\n**Problem Description:**\n" ++ description ++ "\n")]

/-- The rendering as the specification words it: the concatenation, in the
fixed order, of one line per field that the map binds to a string; a field
that is absent or not a string contributes nothing. -/
def renderSpec (m : List (String × Value)) : String :=
  String.join (renderedFields.filterMap fun f =>
    match m.lookup f.1 with
    | some (Value.string text) => some (f.2 text)
    | _ => none)

/-- A server whose backend answers with status 200 and a body that decodes. -/
def sampleServer : MCPServer :=
  { client := Except.ok
      { StatusCode := 200
        Body := Except.ok
          { Data :=
              { ActiveDailyCodingChallengeQuestion :=
                  { Date := "2024-01-01"
                    UserStatus := "NotStart"
                    Link := "/problems/two-sum/"
                    Question :=
                      { QuestionID := "1"
                        QuestionFrontendID := "1"
                        Title := "Two Sum"
                        TitleSlug := "two-sum"
                        Content := "<p>Find <code>a &lt; b</code>.</p>"
                        Difficulty := "Easy"
                        Stats := "" } } } } } }

/-- A tools/call request naming the registered tool, without arguments. -/
def sampleCall : MCPRequest :=
  { JSONRPC := "2.0"
    ID := Value.float64 4
    Method := "tools/call"
    Params := Value.map [("name", Value.string "get_leetcode_daily_challenge")] }

/-- The names of the entries of the "tools" list of a tools/list result: the
`Name` field of every `Tool` in the slice bound to "tools". -/
def listedNames (result : Value) : List String :=
  match result with
  | Value.map m =>
    match mapIndex m "tools" with
    | Value.slice entries =>
      entries.filterMap fun entry =>
        match entry with
        | Value.struct _ fields => (mapIndex fields "Name").asString
        | _ => none
    | _ => []
  | _ => []

/-- A single simultaneous decoding pass over the four entities `&lt;`, `&gt;`,
`&amp;`, `&quot;`: the text is scanned once, left to right; where an entity
starts, its character is emitted and the entity consumed (`skip` counts the
characters still to consume), and emitted characters are never scanned again. -/
def decodeEntitiesGo : Nat → List Char → List Char
  | _, [] => []
  | skip + 1, _ :: cs => decodeEntitiesGo skip cs
  | 0, c :: cs =>
    if "&lt;".data.isPrefixOf (c :: cs) then '<' :: decodeEntitiesGo 3 cs
    else if "&gt;".data.isPrefixOf (c :: cs) then '>' :: decodeEntitiesGo 3 cs
    else if "&amp;".data.isPrefixOf (c :: cs) then '&' :: decodeEntitiesGo 4 cs
    else if "&quot;".data.isPrefixOf (c :: cs) then '"' :: decodeEntitiesGo 5 cs
    else c :: decodeEntitiesGo 0 cs

/-- The single-pass decoding of a text, trimmed as the cleanup trims. -/
def decodeEntitiesOnce (raw : String) : String :=
  TrimSpace (String.mk (decodeEntitiesGo 0 raw.data))

/-- The output line the specification expects for the input line of index
`i`: none for a blank line (empty, or a lone carriage return) and for a line
that does not decode, otherwise the encoded response to the decoded request. -/
def expectedLine (net : Nat → MCPServer) (i : Nat) (raw : String) : Option String :=
  let line := String.mk (dropCR raw.data)
  if line = "" then none
  else
    match Unmarshal line with
    | .error _ => none
    | .ok req => some (encodeResponse (handleRequest (net i) req).response)

/-- The part of a response line after its id: the result member when the
result is set, the error member when the error is set, and the closing
brace. -/
def envelopeTail (response : MCPResponse) : List Char :=
  (if response.Result.isSet then ',' :: ("\"result\":".data ++ encodeValue response.Result)
    else []) ++
  (if response.Error.isSet then ',' :: ("\"error\":".data ++ encodeValue response.Error)
    else []) ++ ['}']

/-- A request line for an unknown method `ping` whose id is written `idText`. -/
def pingLine (idText : String) : String :=
  "\x7b\"jsonrpc\":\"2.0\",\"id\":" ++ idText ++ ",\"method\":\"ping\"\x7d"

/-- The "Method not found" response line whose id is written `idText`. -/
def notFoundLine (idText : String) : String :=
  "\x7b\"jsonrpc\":\"2.0\",\"id\":" ++ idText ++
    ",\"error\":\x7b\"code\":-32601,\"message\":\"Method not found\"\x7d\x7d"

/-! ## The dispatcher: identifiers and envelopes -/

/-- C1: on every path of `handleRequest` (initialize, tools/list, the success
and the three error paths of tools/call, unknown method), for every server
state and every request, the response carries the ID of the request. -/
theorem handleRequest_id_echo (s : MCPServer) (req : MCPRequest) :
    (handleRequest s req).response.ID = req.ID := by
  unfold handleRequest handleInitialize handleListTools handleToolCall
  split_ifs <;> (repeat' (first | split | dsimp only))

/-- C2: every response of `handleRequest` has exactly one of `Result` and
`Error` set: either the result is non-nil and the error nil, or the result is
nil and the error non-nil. -/
theorem handleRequest_result_xor_error (s : MCPServer) (req : MCPRequest) :
    ((handleRequest s req).response.Result ≠ Value.nil ∧
        (handleRequest s req).response.Error = Value.nil) ∨
      ((handleRequest s req).response.Result = Value.nil ∧
        (handleRequest s req).response.Error ≠ Value.nil) := by
  unfold handleRequest handleInitialize handleListTools handleToolCall
  split_ifs <;> (repeat' (first | split | dsimp only)) <;> simp [MCPError.box]

/-! ## The dispatcher: error paths -/

/-- C3: a tools/call request whose params is a map binding `name` to a string
that is not the name of an entry of the tool table (compared exactly) is
answered with error -32601 "Tool not found", for every server state and
whatever else the params hold, and the handler is not invoked. -/
theorem handleRequest_tool_not_found (s : MCPServer) (req : MCPRequest)
    (params : List (String × Value)) (name : String)
    (hmethod : req.Method = "tools/call")
    (hparams : req.Params = Value.map params)
    (hname : mapIndex params "name" = Value.string name)
    (hunreg : name ∉ tools.map Tool.Name) :
    handleRequest s req = errorOutcome req (-32601) "Tool not found" := by
  have hne : name ≠ "get_leetcode_daily_challenge" := by
    intro h
    exact hunreg (by simp [tools, h])
  simp [handleRequest, handleToolCall, hmethod, hparams, hname, Value.asMap,
    Value.asString, hne, errorOutcome]

/-- The example of the specification for C3, and a case variant of the
registered name: params `{"name":"nonexistent"}` with id 2, and the upper-case
spelling of the registered name with arguments supplied. -/
theorem handleRequest_tool_not_found_witness :
    handleRequest { client := Except.error "unreachable" }
        { JSONRPC := "2.0", ID := Value.float64 2, Method := "tools/call",
          Params := Value.map [("name", Value.string "nonexistent")] }
      = errorOutcome
        { JSONRPC := "2.0", ID := Value.float64 2, Method := "tools/call",
          Params := Value.map [("name", Value.string "nonexistent")] }
        (-32601) "Tool not found" :=
  handleRequest_tool_not_found _ _ [("name", Value.string "nonexistent")] "nonexistent"
    rfl rfl rfl (by decide)

/-- C4: a tools/call request whose params is not a map (nil, a string, a
number, a boolean, a slice, or any other non-map value) is answered with error
-32602 "Invalid params", and the handler is not invoked. -/
theorem handleRequest_invalid_params (s : MCPServer) (req : MCPRequest)
    (hmethod : req.Method = "tools/call")
    (hparams : ∀ m, req.Params ≠ Value.map m) :
    handleRequest s req = errorOutcome req (-32602) "Invalid params" := by
  have hnone : req.Params.asMap = none := by
    cases hp : req.Params <;> simp [Value.asMap]
    exact hparams _ hp
  simp [handleRequest, handleToolCall, hmethod, hnone, errorOutcome]

/-- An instance of C4: params absent (nil). -/
theorem handleRequest_invalid_params_witness :
    handleRequest { client := Except.error "unreachable" }
        { JSONRPC := "2.0", ID := Value.string "a", Method := "tools/call", Params := Value.nil }
      = errorOutcome
        { JSONRPC := "2.0", ID := Value.string "a", Method := "tools/call", Params := Value.nil }
        (-32602) "Invalid params" :=
  handleRequest_invalid_params _ _ rfl (by intro m h; cases h)

/-- C5: a tools/call request whose params is a map in which `name` is not bound
to a string (the key is absent, or bound to a number, nil, a map, ...) is
answered with error -32602 "Missing tool name", and the handler is not
invoked. -/
theorem handleRequest_missing_tool_name (s : MCPServer) (req : MCPRequest)
    (params : List (String × Value))
    (hmethod : req.Method = "tools/call")
    (hparams : req.Params = Value.map params)
    (hname : ∀ n, params.lookup "name" ≠ some (Value.string n)) :
    handleRequest s req = errorOutcome req (-32602) "Missing tool name" := by
  have hnone : (mapIndex params "name").asString = none := by
    unfold mapIndex
    cases hl : params.lookup "name" with
    | none => rfl
    | some v =>
      cases v <;> simp [Value.asString]
      exact hname _ hl
  simp [handleRequest, handleToolCall, hmethod, hparams, Value.asMap, hnone, errorOutcome]

/-- An instance of C5: `name` bound to a number, with arguments supplied. -/
theorem handleRequest_missing_tool_name_witness :
    handleRequest { client := Except.error "unreachable" }
        { JSONRPC := "2.0", ID := Value.nil, Method := "tools/call",
          Params := Value.map [("arguments", Value.map []), ("name", Value.float64 7)] }
      = errorOutcome
        { JSONRPC := "2.0", ID := Value.nil, Method := "tools/call",
          Params := Value.map [("arguments", Value.map []), ("name", Value.float64 7)] }
        (-32602) "Missing tool name" :=
  handleRequest_missing_tool_name _ _
    [("arguments", Value.map []), ("name", Value.float64 7)] rfl rfl
    (by intro n h; simp [List.lookup] at h)

/-- C6: a request whose method is none of "initialize", "tools/list",
"tools/call" (compared exactly) is answered with error -32601
"Method not found", whatever its params, and the handler is not invoked. -/
theorem handleRequest_method_not_found (s : MCPServer) (req : MCPRequest)
    (h1 : req.Method ≠ "initialize")
    (h2 : req.Method ≠ "tools/list")
    (h3 : req.Method ≠ "tools/call") :
    handleRequest s req = errorOutcome req (-32601) "Method not found" := by
  simp [handleRequest, h1, h2, h3, errorOutcome]

/-- An instance of C6: a case variant of a handled method. -/
theorem handleRequest_method_not_found_witness :
    handleRequest { client := Except.error "unreachable" }
        { JSONRPC := "2.0", ID := Value.float64 1, Method := "Tools/List",
          Params := Value.map [("name", Value.string "get_leetcode_daily_challenge")] }
      = errorOutcome
        { JSONRPC := "2.0", ID := Value.float64 1, Method := "Tools/List",
          Params := Value.map [("name", Value.string "get_leetcode_daily_challenge")] }
        (-32601) "Method not found" :=
  handleRequest_method_not_found _ _ (by decide) (by decide) (by decide)

/-! ## The dispatcher: invoking the tool -/

/-- A tools/call request naming the registered tool invokes the handler exactly
once and continues with what the handler returned. -/
theorem handleRequest_registered (s : MCPServer) (req : MCPRequest)
    (params : List (String × Value)) (name : String)
    (hmethod : req.Method = "tools/call")
    (hparams : req.Params = Value.map params)
    (hname : mapIndex params "name" = Value.string name)
    (hreg : name ∈ tools.map Tool.Name) :
    ∃ ic, handleRequest s req = afterHandler req ic (getDailyChallenge s ic) := by
  have hn : name = "get_leetcode_daily_challenge" := by simpa [tools] using hreg
  subst hn
  have hcall : handleRequest s req = handleToolCall s req := by
    simp [handleRequest, hmethod]
  rw [hcall]
  have hpm : req.Params.asMap = some params := by rw [hparams]; rfl
  have hns : (mapIndex params "name").asString = some "get_leetcode_daily_challenge" := by
    rw [hname]; rfl
  unfold handleToolCall
  simp only [hpm, hns, if_true]
  cases hargs : (mapIndex params "arguments").asMap with
  | none =>
    refine ⟨true, ?_⟩
    cases hr : getDailyChallenge s true <;> rfl
  | some args =>
    cases hic : (mapIndex args "include_content").asBool with
    | none =>
      refine ⟨true, ?_⟩
      simp only [hic]
      cases hr : getDailyChallenge s true <;> rfl
    | some ic =>
      refine ⟨ic, ?_⟩
      simp only [hic]
      cases hr : getDailyChallenge s ic <;> rfl

/-- C7: a tools/call request naming the registered tool invokes the handler
once; if that invocation fails with description `e`, the response is an error
with code -32603 whose message contains `e` as a contiguous substring, and
there is no result. -/
theorem handleRequest_handler_failure (s : MCPServer) (req : MCPRequest)
    (params : List (String × Value)) (name : String)
    (hmethod : req.Method = "tools/call")
    (hparams : req.Params = Value.map params)
    (hname : mapIndex params "name" = Value.string name)
    (hreg : name ∈ tools.map Tool.Name) :
    ∃ ic, (handleRequest s req).handlerCalls = [ic] ∧
      ∀ e, getDailyChallenge s ic = Except.error e →
        ∃ msg, (handleRequest s req).response.Error
              = MCPError.box { Code := -32603, Message := msg } ∧
          e.data <:+: msg.data ∧
          (handleRequest s req).response.Result = Value.nil := by
  obtain ⟨ic, h⟩ := handleRequest_registered s req params name hmethod hparams hname hreg
  refine ⟨ic, ?_, ?_⟩
  · rw [h]
    cases getDailyChallenge s ic <;> rfl
  · intro e he
    rw [h, he]
    refine ⟨"Failed to fetch daily challenge: " ++ e, rfl, ?_, rfl⟩
    rw [String.data_append]
    exact (List.suffix_append _ _).isInfix

/-- An instance of C7: the round trip fails, the handler reports it, and the
theorem applies to the request. -/
theorem handleRequest_handler_failure_witness :
    getDailyChallenge { client := Except.error "dial tcp: i/o timeout" } true
        = Except.error "failed to make request: dial tcp: i/o timeout" ∧
    ∃ ic, (handleRequest { client := Except.error "dial tcp: i/o timeout" }
          { JSONRPC := "2.0", ID := Value.float64 3, Method := "tools/call",
            Params := Value.map [("name", Value.string "get_leetcode_daily_challenge")] }).handlerCalls
        = [ic] ∧
      ∀ e, getDailyChallenge { client := Except.error "dial tcp: i/o timeout" } ic
          = Except.error e →
        ∃ msg, (handleRequest { client := Except.error "dial tcp: i/o timeout" }
              { JSONRPC := "2.0", ID := Value.float64 3, Method := "tools/call",
                Params := Value.map
                  [("name", Value.string "get_leetcode_daily_challenge")] }).response.Error
              = MCPError.box { Code := -32603, Message := msg } ∧
          e.data <:+: msg.data ∧
          (handleRequest { client := Except.error "dial tcp: i/o timeout" }
              { JSONRPC := "2.0", ID := Value.float64 3, Method := "tools/call",
                Params := Value.map
                  [("name", Value.string "get_leetcode_daily_challenge")] }).response.Result
            = Value.nil :=
  ⟨rfl, handleRequest_handler_failure _ _
    [("name", Value.string "get_leetcode_daily_challenge")] "get_leetcode_daily_challenge"
    rfl rfl rfl (by decide)⟩

/-- C8: a tools/call request naming the registered tool invokes the handler
once; if that invocation succeeds with result `r`, the response has no error
and its result is the map whose "content" is a slice of exactly one block,
of type "text", whose text contains `formatResult r` as a contiguous
substring. -/
theorem handleRequest_handler_success (s : MCPServer) (req : MCPRequest)
    (params : List (String × Value)) (name : String)
    (hmethod : req.Method = "tools/call")
    (hparams : req.Params = Value.map params)
    (hname : mapIndex params "name" = Value.string name)
    (hreg : name ∈ tools.map Tool.Name) :
    ∃ ic, (handleRequest s req).handlerCalls = [ic] ∧
      ∀ r, getDailyChallenge s ic = Except.ok r →
        (handleRequest s req).response.Error = Value.nil ∧
        ∃ text, (handleRequest s req).response.Result
              = Value.map [("content", Value.slice
                  [Value.map [("type", Value.string "text"), ("text", Value.string text)]])] ∧
          (formatResult r).data <:+: text.data := by
  obtain ⟨ic, h⟩ := handleRequest_registered s req params name hmethod hparams hname hreg
  refine ⟨ic, ?_, ?_⟩
  · rw [h]
    cases getDailyChallenge s ic <;> rfl
  · intro r hr
    rw [h, hr]
    refine ⟨rfl, "LeetCode Daily Challenge retrieved successfully:\n\n" ++ formatResult r,
      rfl, ?_⟩
    rw [String.data_append]
    exact (List.suffix_append _ _).isInfix

/-- An instance of C8: the backend answers, the handler builds its result map,
and the theorem applies to the request. -/
theorem handleRequest_handler_success_witness :
    getDailyChallenge sampleServer true
        = Except.ok (Value.map
            [("description", Value.string "Find `a < b`."),
             ("date", Value.string "2024-01-01"),
             ("title", Value.string "Two Sum"),
             ("difficulty", Value.string "Easy"),
             ("link", Value.string "https://leetcode.com/problems/two-sum/"),
             ("problem_id", Value.string "1")]) ∧
    ∃ ic, (handleRequest sampleServer sampleCall).handlerCalls = [ic] ∧
      ∀ r, getDailyChallenge sampleServer ic = Except.ok r →
        (handleRequest sampleServer sampleCall).response.Error = Value.nil ∧
        ∃ text, (handleRequest sampleServer sampleCall).response.Result
              = Value.map [("content", Value.slice
                  [Value.map [("type", Value.string "text"), ("text", Value.string text)]])] ∧
          (formatResult r).data <:+: text.data :=
  ⟨by rfl, handleRequest_handler_success sampleServer sampleCall
    [("name", Value.string "get_leetcode_daily_challenge")] "get_leetcode_daily_challenge"
    rfl rfl rfl (by decide)⟩

/-! ## The response formatter -/

/-- The type assertion to string after a map index, read off the map's binding. -/
theorem asString_mapIndex (m : List (String × Value)) (k : String) :
    (mapIndex m k).asString
      = (match m.lookup k with
         | some (Value.string text) => some text
         | _ => none) := by
  unfold mapIndex
  cases m.lookup k with
  | none => rfl
  | some v => cases v <;> rfl

/-- On a map, `formatResult` is the fixed-order rendering of the specification. -/
theorem formatResult_map (m : List (String × Value)) :
    formatResult (Value.map m) = renderSpec m := by
  have key : ∀ f : String × (String → String),
      (match m.lookup f.1 with
        | some (Value.string text) => some (f.2 text)
        | _ => none) = ((mapIndex m f.1).asString).map f.2 := by
    intro f
    rw [asString_mapIndex]
    cases m.lookup f.1 with
    | none => rfl
    | some v => cases v <;> rfl
  unfold renderSpec
  simp only [key]
  unfold formatResult renderedFields
  simp only [Value.asMap, List.filterMap_cons, List.filterMap_nil]
  generalize (mapIndex m "title").asString = o1
  generalize (mapIndex m "difficulty").asString = o2
  generalize (mapIndex m "problem_id").asString = o3
  generalize (mapIndex m "link").asString = o4
  generalize (mapIndex m "date").asString = o5
  generalize (mapIndex m "description").asString = o6
  cases o1 <;> cases o2 <;> cases o3 <;> cases o4 <;> cases o5 <;> cases o6 <;>
    simp [String.join, String.append_assoc]

/-- C9: on every map, `formatResult` is the concatenation, in the fixed order
title, difficulty, problem_id, link, date, description, of one rendered line
per field that the map binds to a string; a field that is absent or bound to
something else contributes nothing, and the empty map renders to the empty
string. -/
theorem formatResult_fixed_order (m : List (String × Value)) :
    formatResult (Value.map m) = renderSpec m ∧ formatResult (Value.map []) = "" :=
  ⟨formatResult_map m, rfl⟩

/-- C10: `formatResult` returns a string on every value, and on every value
that is not a map (nil, a string, a number, a boolean, a slice, a struct) the
string is the fixed fallback "Unable to format result". -/
theorem formatResult_total (v : Value) :
    (∃ out : String, formatResult v = out) ∧
      ((∀ m, v ≠ Value.map m) → formatResult v = "Unable to format result") := by
  refine ⟨⟨_, rfl⟩, ?_⟩
  intro h
  cases v with
  | map m => exact absurd rfl (h m)
  | _ => rfl

/-- An instance of C10: a slice of strings is not a map and renders to the
fallback. -/
theorem formatResult_total_witness :
    formatResult (Value.slice [Value.string "title"]) = "Unable to format result" :=
  (formatResult_total (Value.slice [Value.string "title"])).2 (by intro m h; cases h)

/-! ## The tool table and the fixed metadata -/

/-- C11: every tools/list request, whatever its id and params and whatever the
server state, succeeds with the result whose "tools" is the boxed tool table,
the same ordered list on every call; the table is non-empty, every entry has a
non-empty name and an input schema with a non-empty type, and one entry is
named "get_leetcode_daily_challenge". -/
theorem handleRequest_tools_list (s : MCPServer) (req : MCPRequest)
    (hmethod : req.Method = "tools/list") :
    handleRequest s req
        = { response :=
              { JSONRPC := "2.0"
                ID := req.ID
                Result := Value.map [("tools", Value.slice (tools.map Tool.box))]
                Error := Value.nil }
            handlerCalls := [] } ∧
      tools ≠ [] ∧
      (∀ t ∈ tools, t.Name ≠ "" ∧
        ∃ schema : ToolSchema, t.InputSchema = schema.box ∧ schema.Type_ ≠ "") ∧
      (∃ t ∈ tools, t.Name = "get_leetcode_daily_challenge") ∧
      listedNames (handleRequest s req).response.Result = tools.map Tool.Name := by
  have hrun : handleRequest s req = handleListTools s req := by
    simp [handleRequest, hmethod]
  refine ⟨by rw [hrun]; rfl, by simp [tools], ?_, by simp [tools], by rw [hrun]; rfl⟩
  intro t ht
  simp only [tools, List.mem_singleton] at ht
  subst ht
  exact ⟨by decide, ⟨_, rfl, by decide⟩⟩

/-- The example of the specification for C11: `tools/list` with id 1 and no
params. -/
theorem handleRequest_tools_list_witness :
    listedNames (handleRequest sampleServer
        { JSONRPC := "2.0", ID := Value.float64 1, Method := "tools/list",
          Params := Value.nil }).response.Result
      = ["get_leetcode_daily_challenge"] :=
  (handleRequest_tools_list sampleServer
    { JSONRPC := "2.0", ID := Value.float64 1, Method := "tools/list", Params := Value.nil }
    rfl).2.2.2.2

/-- C12: every initialize request, whatever its id and params and whatever the
server state, succeeds (result set, no error, no handler call) with the fixed
metadata: protocolVersion "2024-11-05", capabilities.tools.listChanged false,
serverInfo name "leetcode-mcp-server" and version "1.0.0". -/
theorem handleRequest_initialize_fixed (s : MCPServer) (req : MCPRequest)
    (hmethod : req.Method = "initialize") :
    handleRequest s req
        = { response :=
              { JSONRPC := "2.0"
                ID := req.ID
                Result := Value.map
                  [("protocolVersion", Value.string "2024-11-05"),
                   ("capabilities", Value.map
                      [("tools", Value.map [("listChanged", Value.bool false)])]),
                   ("serverInfo", Value.map
                      [("name", Value.string "leetcode-mcp-server"),
                       ("version", Value.string "1.0.0")])]
                Error := Value.nil }
            handlerCalls := [] } := by
  simp [handleRequest, hmethod, handleInitialize]

/-- An instance of C12: an initialize request that carries params. -/
theorem handleRequest_initialize_fixed_witness :
    (handleRequest { client := Except.error "unreachable" }
        { JSONRPC := "2.0", ID := Value.string "init", Method := "initialize",
          Params := Value.map [("protocolVersion", Value.string "1999")] }).response.Result
      = Value.map
          [("protocolVersion", Value.string "2024-11-05"),
           ("capabilities", Value.map
              [("tools", Value.map [("listChanged", Value.bool false)])]),
           ("serverInfo", Value.map
              [("name", Value.string "leetcode-mcp-server"),
               ("version", Value.string "1.0.0")])] :=
  congrArg (fun o => o.response.Result)
    (handleRequest_initialize_fixed { client := Except.error "unreachable" }
      { JSONRPC := "2.0", ID := Value.string "init", Method := "initialize",
        Params := Value.map [("protocolVersion", Value.string "1999")] } rfl)

/-- A tools/call request whose name is a string other than the one the switch
of `handleToolCall` handles gets the "Tool not found" envelope. -/
theorem handleRequest_default_case (s : MCPServer) (req : MCPRequest)
    (params : List (String × Value)) (name : String)
    (hmethod : req.Method = "tools/call")
    (hparams : req.Params = Value.map params)
    (hname : mapIndex params "name" = Value.string name)
    (hne : name ≠ "get_leetcode_daily_challenge") :
    handleRequest s req = errorOutcome req (-32601) "Tool not found" := by
  simp [handleRequest, handleToolCall, hmethod, hparams, hname, Value.asMap,
    Value.asString, hne, errorOutcome]

/-- C18: the table listed by tools/list and the switch of tools/call agree: a
string `n` is the name of an entry of the tools/list result if and only if a
tools/call request with `params.name = n` is not answered with the
"Tool not found" error. -/
theorem tools_list_call_agree (s : MCPServer) (listReq callReq : MCPRequest)
    (params : List (String × Value)) (n : String)
    (hlist : listReq.Method = "tools/list")
    (hcall : callReq.Method = "tools/call")
    (hparams : callReq.Params = Value.map params)
    (hname : mapIndex params "name" = Value.string n) :
    n ∈ listedNames (handleRequest s listReq).response.Result ↔
      (handleRequest s callReq).response.Error
        ≠ MCPError.box { Code := -32601, Message := "Tool not found" } := by
  have hrun : handleRequest s listReq = handleListTools s listReq := by
    simp [handleRequest, hlist]
  have hnames : listedNames (handleRequest s listReq).response.Result
      = ["get_leetcode_daily_challenge"] := by rw [hrun]; rfl
  rw [hnames, List.mem_singleton]
  constructor
  · intro hn
    obtain ⟨ic, h⟩ := handleRequest_registered s callReq params n hcall hparams hname
      (by simp [tools, hn])
    rw [h]
    cases getDailyChallenge s ic <;> simp [afterHandler, MCPError.box]
  · intro herr
    by_contra hne
    exact herr (by rw [handleRequest_default_case s callReq params n hcall hparams hname hne]; rfl)

/-- Instances of C18: the listed name is called without "Tool not found", and
the theorem applies to it. -/
theorem tools_list_call_agree_witness :
    "get_leetcode_daily_challenge" ∈ listedNames (handleRequest sampleServer
        { JSONRPC := "2.0", ID := Value.nil, Method := "tools/list",
          Params := Value.nil }).response.Result ↔
      (handleRequest sampleServer sampleCall).response.Error
        ≠ MCPError.box { Code := -32601, Message := "Tool not found" } :=
  tools_list_call_agree sampleServer
    { JSONRPC := "2.0", ID := Value.nil, Method := "tools/list", Params := Value.nil }
    sampleCall [("name", Value.string "get_leetcode_daily_challenge")]
    "get_leetcode_daily_challenge" rfl rfl rfl rfl

/-- C16: a tools/call request naming the registered tool invokes the handler
exactly once, and the argument of that call is false if and only if
`params.arguments` is a map that binds `include_content` to the boolean false;
in every other case (arguments absent or not a map, key absent, or a value
that is not a boolean) the argument is true. -/
theorem handleRequest_include_content (s : MCPServer) (req : MCPRequest)
    (params : List (String × Value)) (name : String)
    (hmethod : req.Method = "tools/call")
    (hparams : req.Params = Value.map params)
    (hname : mapIndex params "name" = Value.string name)
    (hreg : name ∈ tools.map Tool.Name) :
    ∃ ic, (handleRequest s req).handlerCalls = [ic] ∧
      (ic = false ↔
        ∃ args, mapIndex params "arguments" = Value.map args ∧
          mapIndex args "include_content" = Value.bool false) := by
  have hn : name = "get_leetcode_daily_challenge" := by simpa [tools] using hreg
  subst hn
  have hcall : handleRequest s req = handleToolCall s req := by
    simp [handleRequest, hmethod]
  have hpm : req.Params.asMap = some params := by rw [hparams]; rfl
  have hns : (mapIndex params "name").asString = some "get_leetcode_daily_challenge" := by
    rw [hname]; rfl
  rw [hcall]
  unfold handleToolCall
  simp only [hpm, hns, if_true]
  cases hargs : (mapIndex params "arguments").asMap with
  | none =>
    refine ⟨true, ?_, ?_⟩
    · cases hr : getDailyChallenge s true <;> rfl
    · constructor
      · intro h; cases h
      · rintro ⟨args, ha, -⟩
        rw [ha] at hargs
        cases hargs
  | some args =>
    have hargs' : mapIndex params "arguments" = Value.map args := by
      cases hv : mapIndex params "arguments" <;> rw [hv] at hargs <;> cases hargs
      rfl
    cases hic : (mapIndex args "include_content").asBool with
    | none =>
      refine ⟨true, ?_, ?_⟩
      · simp only [hic]
        cases hr : getDailyChallenge s true <;> rfl
      · constructor
        · intro h; cases h
        · rintro ⟨args2, ha, hb⟩
          rw [hargs'] at ha
          cases ha
          rw [hb] at hic
          cases hic
    | some ic =>
      have hic' : mapIndex args "include_content" = Value.bool ic := by
        cases hv : mapIndex args "include_content" <;> rw [hv] at hic <;> cases hic
        rfl
      refine ⟨ic, ?_, ?_⟩
      · simp only [hic]
        cases hr : getDailyChallenge s ic <;> rfl
      · constructor
        · intro h
          exact ⟨args, hargs', by rw [hic', h]⟩
        · rintro ⟨args2, ha, hb⟩
          rw [hargs'] at ha
          cases ha
          rw [hic'] at hb
          cases hb
          rfl

/-- An instance of C16: `include_content` bound to the string "false", not to
the boolean. -/
theorem handleRequest_include_content_witness :
    ∃ ic, (handleRequest sampleServer
          { JSONRPC := "2.0", ID := Value.float64 5, Method := "tools/call",
            Params := Value.map
              [("name", Value.string "get_leetcode_daily_challenge"),
               ("arguments", Value.map
                  [("include_content", Value.string "false")])] }).handlerCalls = [ic] ∧
      (ic = false ↔
        ∃ args,
          mapIndex
              [("name", Value.string "get_leetcode_daily_challenge"),
               ("arguments", Value.map [("include_content", Value.string "false")])]
              "arguments" = Value.map args ∧
          mapIndex args "include_content" = Value.bool false) :=
  handleRequest_include_content sampleServer _
    [("name", Value.string "get_leetcode_daily_challenge"),
     ("arguments", Value.map [("include_content", Value.string "false")])]
    "get_leetcode_daily_challenge" rfl rfl rfl (by decide)

/-! ## The description cleanup -/

/-- C17: the ordered cleanup is not escaping-safe and not idempotent: the
content `&lt;p&gt;` is cleaned to `<p>`, a fragment the second rule of the
table strips, and cleaning that output again gives the empty text. -/
theorem cleanContent_not_escaping_safe :
    cleanContent "&lt;p&gt;" = "<p>" ∧
      ReplaceAll "<p>" "<p>" "" = "" ∧
      cleanContent (cleanContent "&lt;p&gt;") = "" ∧
      ¬ ∀ raw, cleanContent (cleanContent raw) = cleanContent raw := by
  refine ⟨by decide, by decide, by decide, ?_⟩
  intro h
  exact absurd (h "&lt;p&gt;") (by decide)

/-- C19: on tag-free content the sequential entity replacements differ from a
single simultaneous decoding pass: `&amp;quot;` is cleaned to `"` (decoded
twice) where one pass gives `&quot;`, whereas `&amp;lt;` is cleaned to `&lt;`
(decoded once), as one pass gives. -/
theorem cleanContent_differs_from_single_pass :
    cleanContent "&amp;quot;" = "\"" ∧
      decodeEntitiesOnce "&amp;quot;" = "&quot;" ∧
      cleanContent "&amp;lt;" = "&lt;" ∧
      decodeEntitiesOnce "&amp;lt;" = "&lt;" ∧
      ¬ ∀ raw, cleanContent raw = decodeEntitiesOnce raw := by
  refine ⟨by decide, by decide, by decide, by decide, ?_⟩
  intro h
  exact absurd (h "&amp;quot;") (by decide)

/-! ## The codec and the session loop -/

/-- Leading JSON white space is all of a text made of white space. -/
theorem skipSpace_of_all_space (cs : List Char) (h : ∀ c ∈ cs, isJSONSpace c = true) :
    skipSpace cs = [] := by
  induction cs with
  | nil => rfl
  | cons c cs ih =>
    have hc : isJSONSpace c = true := h c (List.mem_cons_self _ _)
    simp only [skipSpace, hc, if_true]
    exact ih (fun d hd => h d (List.mem_cons_of_mem _ hd))

/-- A line made of JSON white space only does not decode. -/
theorem Unmarshal_of_all_space (line : String) (h : ∀ c ∈ line.data, isJSONSpace c = true) :
    ∃ e, Unmarshal line = Except.error e := by
  have hp : parseJSON line = none := by
    unfold parseJSON
    rw [show parseValue (line.data.length + 1) maxNestingDepth line.data = none from by
      simp only [parseValue, skipSpace_of_all_space line.data h]
      rfl]
  exact ⟨"invalid character", by simp only [Unmarshal, hp]⟩

/-- A line below the token limit is delivered without its trailing carriage
return. -/
theorem scanLine_fit (raw : String) (h : utf8Length raw.data < MaxScanTokenSize) :
    scanLine raw = Except.ok (String.mk (dropCR raw.data)) := by
  unfold scanLine
  rw [if_neg (Nat.not_le.mpr h)]

/-- A line at or above the token limit makes the scan fail. -/
theorem scanLine_long (raw : String) (h : MaxScanTokenSize ≤ utf8Length raw.data) :
    scanLine raw = Except.error "bufio.Scanner: token too long" := by
  unfold scanLine
  rw [if_pos h]

/-- What `dropCR` keeps is part of the line. -/
theorem mem_of_mem_dropCR : ∀ (cs : List Char) (c : Char), c ∈ dropCR cs → c ∈ cs
  | [], _, h => h
  | [d], c, h => by
    unfold dropCR at h
    split_ifs at h
    · cases h
    · exact h
  | d :: e :: rest, c, h => by
    simp only [dropCR, List.mem_cons] at h
    rcases h with h | h
    · exact List.mem_cons.mpr (Or.inl h)
    · exact List.mem_cons_of_mem _ (mem_of_mem_dropCR (e :: rest) c h)

/-- The byte length of a run of the letter `a`. -/
theorem utf8Length_replicate (n : Nat) : utf8Length (List.replicate n 'a') = n := by
  induction n with
  | zero => rfl
  | succ n ih =>
    rw [List.replicate_succ, utf8Length, ih]
    have h1 : utf8Size 'a' = 1 := by decide
    omega

/-- One step of the loop on a delivered line. -/
theorem mainLoop_cons_fit (net : Nat → MCPServer) (i : Nat) (raw : String) (rest : List String)
    (h : utf8Length raw.data < MaxScanTokenSize) :
    mainLoop net i (raw :: rest)
      = (match expectedLine net i raw with
         | some out => out :: mainLoop net (i + 1) rest
         | none => mainLoop net (i + 1) rest) := by
  simp only [mainLoop, scanLine_fit raw h, Marshal, expectedLine]
  by_cases hl : String.mk (dropCR raw.data) = ""
  · simp only [hl, if_true]
  · simp only [hl, if_false]
    cases Unmarshal (String.mk (dropCR raw.data)) <;> rfl

/-- The loop from index `i` on, over lines below the token limit, prints the
expected lines, in input order. -/
theorem mainLoop_eq (net : Nat → MCPServer) (lines : List String) (i : Nat)
    (hfit : ∀ raw ∈ lines, utf8Length raw.data < MaxScanTokenSize) :
    mainLoop net i lines
      = (lines.enumFrom i).filterMap (fun p => expectedLine net p.1 p.2) := by
  induction lines generalizing i with
  | nil => rfl
  | cons raw rest ih =>
    rw [mainLoop_cons_fit net i raw rest (hfit raw (List.mem_cons_self _ _)),
      List.enumFrom_cons, List.filterMap_cons,
      ih (i + 1) (fun r hr => hfit r (List.mem_cons_of_mem _ hr))]
    cases expectedLine net i raw <;> rfl

/-- A line at or above the token limit ends the loop: the output is that of
the lines before it. -/
theorem mainLoop_stop (net : Nat → MCPServer) (long : String) (rest : List String)
    (hlong : MaxScanTokenSize ≤ utf8Length long.data) :
    ∀ (before : List String) (i : Nat),
      mainLoop net i (before ++ long :: rest) = mainLoop net i before
  | [], i => by
    simp only [List.nil_append, mainLoop, scanLine_long long hlong]
  | raw :: more, i => by
    simp only [List.cons_append, mainLoop]
    cases scanLine raw with
    | error e => rfl
    | ok line =>
      have ih := mainLoop_stop net long rest hlong more (i + 1)
      simp only [List.append_eq, ih]

/-- C13 as the code has it: for every finite sequence of input lines each
below the scanner's token limit of 65536 bytes, the output of the session loop
is exactly, in input order, the encoded response to each line that is not
blank and decodes: such a line gives one output line; a blank line, a line of
white space and a line that does not decode (as `not json`) give none, and the
lines after them are still processed.  A line of 65536 bytes or more ends the
loop: neither it nor any line after it is answered. -/
theorem main_output_lines (net : Nat → MCPServer) (lines : List String)
    (hfit : ∀ raw ∈ lines, utf8Length raw.data < MaxScanTokenSize) :
    main net lines
        = (lines.enumFrom 0).filterMap (fun p => expectedLine net p.1 p.2) ∧
      (∀ i raw, (expectedLine net i raw).isSome = true ↔
        (String.mk (dropCR raw.data) ≠ "" ∧
          ∃ req, Unmarshal (String.mk (dropCR raw.data)) = Except.ok req)) ∧
      (∀ i raw, (∀ c ∈ raw.data, isJSONSpace c = true) → expectedLine net i raw = none) ∧
      (∀ i, expectedLine net i "" = none ∧ expectedLine net i "\r" = none ∧
        expectedLine net i "not json" = none) ∧
      main net ("" :: "not json" :: lines)
        = (lines.enumFrom 2).filterMap (fun p => expectedLine net p.1 p.2) ∧
      (∀ long rest, MaxScanTokenSize ≤ utf8Length long.data →
        main net (lines ++ long :: rest) = main net lines) := by
  refine ⟨mainLoop_eq net lines 0 hfit, ?_, ?_, ?_, ?_, ?_⟩
  · intro i raw
    unfold expectedLine
    by_cases hl : String.mk (dropCR raw.data) = ""
    · simp [hl]
    · cases hu : Unmarshal (String.mk (dropCR raw.data)) <;> simp [hl, hu]
  · intro i raw h
    obtain ⟨e, he⟩ := Unmarshal_of_all_space (String.mk (dropCR raw.data))
      (fun c hc => h c (mem_of_mem_dropCR raw.data c hc))
    unfold expectedLine
    simp [he]
  · intro i
    exact ⟨rfl, rfl, rfl⟩
  · unfold main
    rw [mainLoop_eq net _ 0 (by
      intro raw hr
      rcases List.mem_cons.mp hr with h | hr
      · rw [h]; decide
      · rcases List.mem_cons.mp hr with h | hr
        · rw [h]; decide
        · exact hfit raw hr)]
    rfl
  · intro long rest hlong
    exact mainLoop_stop net long rest hlong lines 0

/-- An instance of C13 as the code has it: an empty line, a line that does not
decode and a request, all below the token limit. -/
theorem main_output_lines_witness :
    main (fun _ => sampleServer) ["", "not json", pingLine "1"] = [notFoundLine "1"] :=
  ((main_output_lines (fun _ => sampleServer) ["", "not json", pingLine "1"]
    (by decide)).1).trans (by decide)

/-- The counterexample to C13: a line of 65536 bytes, followed by a request
that is not blank and decodes.  The loop ends at the long line and prints
nothing, where the claim has one output line, the response to the request. -/
theorem main_long_line_counterexample :
    utf8Length (String.mk (List.replicate 65536 'a')).data = 65536 ∧
      main (fun _ => sampleServer) [String.mk (List.replicate 65536 'a'), pingLine "1"] = [] ∧
      expectedLine (fun _ => sampleServer) 1 (pingLine "1") = some (notFoundLine "1") := by
  have hlen : utf8Length (String.mk (List.replicate 65536 'a')).data = 65536 :=
    utf8Length_replicate 65536
  exact ⟨hlen,
    mainLoop_stop (fun _ => sampleServer) (String.mk (List.replicate 65536 'a'))
      [pingLine "1"] (by rw [hlen]; decide) [] 0,
    by decide⟩

/-- The loop on a single line that is delivered and decodes. -/
theorem main_single (net : Nat → MCPServer) (raw line : String) (req : MCPRequest)
    (hscan : scanLine raw = Except.ok line)
    (hdec : Unmarshal line = Except.ok req) :
    main net [raw] = [encodeResponse (handleRequest (net 0) req).response] := by
  have hne : line ≠ "" := by
    intro h
    have herr : Unmarshal "" = Except.error "invalid character" := rfl
    rw [h, herr] at hdec
    cases hdec
  simp [main, mainLoop, hscan, hne, hdec, Marshal]

/-- The id a response carries, on every path of the dispatcher. -/
theorem response_id (s : MCPServer) (req : MCPRequest) :
    (handleRequest s req).response.ID = req.ID := by
  unfold handleRequest handleInitialize handleListTools handleToolCall
  split_ifs <;> (repeat' (first | split | dsimp only))

/-- Every response carries the version tag "2.0". -/
theorem handleRequest_version (s : MCPServer) (req : MCPRequest) :
    (handleRequest s req).response.JSONRPC = "2.0" := by
  unfold handleRequest handleInitialize handleListTools handleToolCall
  split_ifs <;> (repeat' (first | split | dsimp only))

/-- The encoding of a response with version tag "2.0": the tag, the encoding
of the id, and the rest of the envelope. -/
theorem encodeResponse_id (response : MCPResponse) (hv : response.JSONRPC = "2.0") :
    encodeResponse response
      = String.mk ("\x7b\"jsonrpc\":\"2.0\",\"id\":".data ++ encodeValue response.ID ++
          envelopeTail response) := by
  have hP : "\x7b\"jsonrpc\":\"2.0\",\"id\":".data
      = '{' :: (("\"jsonrpc\":".data ++ encodeString "2.0") ++ ',' :: "\"id\":".data) := by
    decide
  unfold encodeResponse envelopeTail
  rw [hv, hP]
  generalize "\"jsonrpc\":".data ++ encodeString "2.0" = front
  generalize "\"id\":".data = key
  generalize "\"result\":".data = resultKey
  generalize "\"error\":".data = errorKey
  generalize encodeValue response.ID = idText
  cases response.Result.isSet <;> cases response.Error.isSet <;>
    simp [joinComma, List.append_assoc]

/-- C15 as the code has it: the id is echoed as a value, not byte for byte.
For every delivered line that decodes, the one output line is the envelope
made of the version tag, then, as its id, the JSON encoding of the decoded id
value, then the result or error member and the closing brace.  The id text is
unchanged for ids such as null, 7 and "abc". -/
theorem main_id_value_echo (net : Nat → MCPServer) (raw line : String) (req : MCPRequest)
    (hscan : scanLine raw = Except.ok line)
    (hdec : Unmarshal line = Except.ok req) :
    main net [raw]
        = [String.mk ("\x7b\"jsonrpc\":\"2.0\",\"id\":".data ++ encodeValue req.ID ++
            envelopeTail (handleRequest (net 0) req).response)] ∧
      main net [pingLine "null"] = [notFoundLine "null"] ∧
      main net [pingLine "7"] = [notFoundLine "7"] ∧
      main net [pingLine "\"abc\""] = [notFoundLine "\"abc\""] := by
  refine ⟨?_, by rfl, by rfl, by rfl⟩
  rw [main_single net raw line req hscan hdec,
    encodeResponse_id _ (handleRequest_version _ _), response_id]

/-- An instance of C15 as the code has it: a request for an unknown method
with the id 12345; the whole response line is determined, its id being the
encoding of the decoded id. -/
theorem main_id_value_echo_witness :
    main (fun _ => sampleServer) [pingLine "12345"]
        = [String.mk ("\x7b\"jsonrpc\":\"2.0\",\"id\":".data ++
            encodeValue (Value.float64 12345) ++
            envelopeTail (handleRequest sampleServer
              { JSONRPC := "2.0", ID := Value.float64 12345, Method := "ping",
                Params := Value.nil }).response)] ∧
      encodeValue (Value.float64 12345) = "12345".data ∧
      envelopeTail (handleRequest sampleServer
          { JSONRPC := "2.0", ID := Value.float64 12345, Method := "ping",
            Params := Value.nil }).response
        = ",\"error\":\x7b\"code\":-32601,\"message\":\"Method not found\"\x7d\x7d".data :=
  ⟨(main_id_value_echo (fun _ => sampleServer) (pingLine "12345") (pingLine "12345")
      { JSONRPC := "2.0", ID := Value.float64 12345, Method := "ping", Params := Value.nil }
      (by rfl) (by rfl)).1,
    by decide, by decide⟩

/-- The counterexample to C15: the ids `1.0`, `1e2` and `9007199254740993`
(above 2^53) are emitted as `1`, `100` and `9007199254740992`, and a string id
written with the escape of `b` and a plain `<` is emitted with a plain `b` and
the escape of `<`. -/
theorem main_id_not_bytewise_counterexample :
    main (fun _ => sampleServer) [pingLine "1.0"] = [notFoundLine "1"] ∧
      main (fun _ => sampleServer) [pingLine "1e2"] = [notFoundLine "100"] ∧
      main (fun _ => sampleServer) [pingLine "9007199254740993"]
        = [notFoundLine "9007199254740992"] ∧
      main (fun _ => sampleServer) [pingLine "\"a\\u0062<\""] = [notFoundLine "\"ab\\u003c\""] ∧
      notFoundLine "1" ≠ notFoundLine "1.0" := by
  refine ⟨by decide, by decide, by decide, by decide, by decide⟩

end MCP
